import Mathlib

/-!
Verification of the Zyntrain-AI task manager core against its specification.

This file shallowly embeds the task-ranking engine, the AI-optimize scoring,
the per-user JSON document store, the chat daily quota, the chat-log cap and
the task CRUD handlers of the repository, and proves the spec's claims about
them.  Conventions used throughout:

* ISO timestamps are modelled as integer milliseconds since the epoch
  (`Int`); the JS `Date` arithmetic in the source only ever subtracts
  timestamps, so this is faithful.
* JS numbers are modelled as exact rationals (`ℚ`); every number the scored
  code manipulates is a small rational, far from any float-precision issue.
* JS `Array.prototype.sort(comparator)` is required by ES2019 to be stable;
  it is modelled as the canonical stable sort, `List.insertionSort` with the
  relation `comparator a b ≤ 0` (insert `a` before the first `b` it does not
  strictly follow), which keeps the original relative order of every pair
  the comparator does not strictly order.
* Absent / `null` / falsy JS fields are modelled with `Option`.
-/

namespace Zyntrain

/-- A task document, following §3 of the spec and the fields the source reads
(`scripts` dashboard code and `server.js`).  `deadline`, `completedAt` are
millisecond timestamps; `priority` and `energyRequired` are left as free-form
strings because the source looks them up in keyed tables with a default. -/
structure Task where
  id : String := ""
  title : String := ""
  description : String := ""
  completed : Bool := false
  completedAt : Option Int := none
  deadline : Option Int := none
  priority : String := "medium"
  category : String := "general"
  duration : Option Int := none
  energyRequired : Option String := none
  createdAt : Int := 0
deriving Repr, DecidableEq

/-- `priorityWeights[p] || 2` from `AIService.suggestTaskReorder` and the
identical `priorityOrder[p] || 2` in `TaskManager.sortTasks`:
urgent → 4, high → 3, medium → 2, low → 1, anything else → 2. -/
def priorityWeight (p : String) : Int :=
  if p = "urgent" then 4
  else if p = "high" then 3
  else if p = "medium" then 2
  else if p = "low" then 1
  else 2

/-- `AIService.getEnergyMatchScore`: the fixed 3×3 table
`energyMap[userEnergy]?.[taskEnergy] || 1`.  A missing row (unknown user
energy), a missing task energy or an unknown task energy all fall through to
the default `1`; every table value is truthy so `|| 1` only fires on
`undefined`. -/
def energyMatchScore (userEnergy : String) (taskEnergy : Option String) : ℚ :=
  if userEnergy = "high" then
    if taskEnergy = some "high" then 2
    else if taskEnergy = some "medium" then 1
    else if taskEnergy = some "low" then 1/2
    else 1
  else if userEnergy = "medium" then
    if taskEnergy = some "high" then 3/2
    else if taskEnergy = some "medium" then 2
    else if taskEnergy = some "low" then 1
    else 1
  else if userEnergy = "low" then
    if taskEnergy = some "high" then 1/2
    else if taskEnergy = some "medium" then 1
    else if taskEnergy = some "low" then 2
    else 1
  else 1

/-- `AIService.getDeadlineUrgencyScore`: no deadline → 1; otherwise
`hoursDiff = (deadline - currentTime) / (1000*60*60)`, `< 2 → 3`,
`< 24 → 2`, else `1`.  Overdue deadlines give a negative `hoursDiff` and
hence score 3, exactly as in the source. -/
def getDeadlineUrgencyScore (currentTime : Int) (t : Task) : ℚ :=
  match t.deadline with
  | none => 1
  | some dl =>
    let hoursDiff : ℚ := ((dl - currentTime : Int) : ℚ) / (1000 * 60 * 60)
    if hoursDiff < 2 then 3
    else if hoursDiff < 24 then 2
    else 1

/-- `calculateScore` inside `AIService.suggestTaskReorder`:
`priorityScore * energyScore * deadlineScore`. -/
def calculateScore (currentTime : Int) (userEnergy : String) (t : Task) : ℚ :=
  (priorityWeight t.priority : ℚ) *
    energyMatchScore userEnergy t.energyRequired *
    getDeadlineUrgencyScore currentTime t

/-- The comparator `(a, b) => calculateScore(b) - calculateScore(a)` passed
to `sort` by `AIService.suggestTaskReorder`. -/
def cmpScore (currentTime : Int) (userEnergy : String) (a b : Task) : ℚ :=
  calculateScore currentTime userEnergy b - calculateScore currentTime userEnergy a

/-- The deadline clause of the `TaskManager.sortTasks` comparator:
`if (a.deadline && b.deadline) return new Date(a.deadline) - new Date(b.deadline);
return 0;`. -/
def deadlineDiff (da db : Option Int) : ℚ :=
  match da, db with
  | some x, some y => ((x - y : Int) : ℚ)
  | _, _ => 0

/-- The comparator of `TaskManager.sortTasks`: completed tasks last, then
priority weight descending, then (when both tasks have a deadline) earlier
deadline first, otherwise equal. -/
def cmpTasks (a b : Task) : ℚ :=
  if a.completed ≠ b.completed then
    (if a.completed then 1 else -1)
  else if priorityWeight a.priority ≠ priorityWeight b.priority then
    ((priorityWeight b.priority - priorityWeight a.priority : Int) : ℚ)
  else
    deadlineDiff a.deadline b.deadline

/-- The sort relation induced by a JS comparator `c`: `a` precedes `b`
whenever `c a b ≤ 0`, so a stable sort keeps the original order of every
pair the comparator reports as `0`. -/
def jsSortRel {α : Type} (c : α → α → ℚ) (a b : α) : Prop := c a b ≤ 0

instance {α : Type} (c : α → α → ℚ) : DecidableRel (jsSortRel c) :=
  fun a b => inferInstanceAs (Decidable (c a b ≤ 0))

/-- JS `array.sort(c)` (stable), modelled as the canonical stable sort:
insertion sort on the relation `c a b ≤ 0`. -/
def jsSort {α : Type} (c : α → α → ℚ) (l : List α) : List α :=
  List.insertionSort (jsSortRel c) l

/-- `AIService.suggestTaskReorder`: `[...tasks].sort((a, b) =>
calculateScore(b) - calculateScore(a))`. -/
def suggestTaskReorder (tasks : List Task) (currentTime : Int)
    (userEnergy : String) : List Task :=
  jsSort (cmpScore currentTime userEnergy) tasks

/-- `TaskManager.sortTasks`. -/
def sortTasks (tasks : List Task) : List Task :=
  jsSort cmpTasks tasks

/-- Pair every element with its position, to state stability. -/
def withIdx {α : Type} : List α → Nat → List (Nat × α)
  | [], _ => []
  | x :: xs, n => (n, x) :: withIdx xs (n + 1)

/-! ### Generic facts about the stable JS sort -/

theorem jsSort_perm {α : Type} (c : α → α → ℚ) (l : List α) :
    (jsSort c l).Perm l :=
  List.perm_insertionSort _ l

theorem orderedInsert_congr {α : Type} (R₁ R₂ : α → α → Prop)
    [DecidableRel R₁] [DecidableRel R₂] (h : ∀ a b, R₁ a b ↔ R₂ a b)
    (x : α) : ∀ l : List α, List.orderedInsert R₁ x l = List.orderedInsert R₂ x l
  | [] => rfl
  | y :: ys => by
    simp only [List.orderedInsert]
    exact if_congr (h x y) rfl (congrArg _ (orderedInsert_congr R₁ R₂ h x ys))

theorem jsSort_congr {α : Type} {c₁ c₂ : α → α → ℚ}
    (h : ∀ a b, c₁ a b ≤ 0 ↔ c₂ a b ≤ 0) : ∀ l : List α, jsSort c₁ l = jsSort c₂ l
  | [] => rfl
  | x :: xs => by
    simp only [jsSort, List.insertionSort]
    rw [show List.insertionSort (jsSortRel c₁) xs = List.insertionSort (jsSortRel c₂) xs
      from jsSort_congr h xs]
    exact orderedInsert_congr _ _ h x _

theorem chain'_orderedInsert {α : Type} {c : α → α → ℚ}
    (htot : ∀ a b, c a b ≤ 0 ∨ c b a ≤ 0) (x : α) :
    ∀ m : List α, List.Chain' (jsSortRel c) m →
      List.Chain' (jsSortRel c) (List.orderedInsert (jsSortRel c) x m)
  | [], _ => List.chain'_singleton x
  | y :: ys, hch => by
    by_cases hxy : jsSortRel c x y
    · rw [List.orderedInsert, if_pos hxy]
      exact List.chain'_cons.mpr ⟨hxy, hch⟩
    · rw [List.orderedInsert, if_neg hxy]
      have hyx : jsSortRel c y x := (htot x y).resolve_left hxy
      cases ys with
      | nil => simpa [List.orderedInsert] using hyx
      | cons z zs =>
        by_cases hxz : jsSortRel c x z
        · rw [List.orderedInsert, if_pos hxz]
          exact List.chain'_cons.mpr ⟨hyx, List.chain'_cons.mpr ⟨hxz, hch.tail⟩⟩
        · rw [List.orderedInsert, if_neg hxz]
          have h2 := chain'_orderedInsert htot x (z :: zs) hch.tail
          rw [List.orderedInsert, if_neg hxz] at h2
          exact List.chain'_cons.mpr ⟨(List.chain'_cons.mp hch).1, h2⟩

theorem chain'_jsSort {α : Type} {c : α → α → ℚ}
    (htot : ∀ a b, c a b ≤ 0 ∨ c b a ≤ 0) :
    ∀ l : List α, List.Chain' (jsSortRel c) (jsSort c l)
  | [] => List.chain'_nil
  | x :: xs => chain'_orderedInsert htot x _ (chain'_jsSort htot xs)

theorem jsSort_eq_of_chain' {α : Type} {c : α → α → ℚ} :
    ∀ {l : List α}, List.Chain' (jsSortRel c) l → jsSort c l = l
  | [], _ => rfl
  | x :: xs, hch => by
    have hxs : jsSort c xs = xs := jsSort_eq_of_chain' hch.tail
    simp only [jsSort, List.insertionSort] at hxs ⊢
    rw [hxs]
    cases xs with
    | nil => rfl
    | cons y ys => exact List.orderedInsert_of_le _ _ (List.chain'_cons.mp hch).1

/-- The stable JS sort is idempotent for any comparator such that every pair
is ordered at least one way round. -/
theorem jsSort_idem {α : Type} {c : α → α → ℚ}
    (htot : ∀ a b, c a b ≤ 0 ∨ c b a ≤ 0) (l : List α) :
    jsSort c (jsSort c l) = jsSort c l :=
  jsSort_eq_of_chain' (chain'_jsSort htot l)

/-- A later element of a chain-sorted list is related to the head, given
transitivity of the target relation. -/
theorem rel_head_of_chain' {α : Type} {S : α → α → Prop}
    (htr : ∀ a b d, S a b → S b d → S a d) :
    ∀ {x : α} {l : List α}, List.Chain' S (x :: l) → ∀ y ∈ l, S x y := by
  intro x l
  induction l generalizing x with
  | nil => intro _ y hy; cases hy
  | cons z zs ih =>
    intro hch y hy
    have hxz : S x z := (List.chain'_cons.mp hch).1
    rcases List.mem_cons.mp hy with rfl | hy'
    · exact hxz
    · exact htr _ _ _ hxz (ih (List.chain'_cons.mp hch).2 y hy')

/-- A chain for `R` gives pairwise `S` whenever `R` implies `S` and `S` is
transitive. -/
theorem pairwise_of_chain' {α : Type} {R S : α → α → Prop}
    (hRS : ∀ a b, R a b → S a b) (htr : ∀ a b d, S a b → S b d → S a d) :
    ∀ {l : List α}, List.Chain' R l → List.Pairwise S l := by
  intro l
  induction l with
  | nil => intro _; exact List.Pairwise.nil
  | cons x xs ih =>
    intro hch
    have hS : List.Chain' S (x :: xs) := List.Chain'.imp hRS hch
    exact List.pairwise_cons.mpr ⟨rel_head_of_chain' htr hS, ih hch.tail⟩

theorem withIdx_map_snd {α : Type} : ∀ (l : List α) (n : Nat),
    (withIdx l n).map Prod.snd = l
  | [], _ => rfl
  | x :: xs, n => by simp [withIdx, withIdx_map_snd xs]

theorem withIdx_fst_lt {α : Type} : ∀ {l : List α} {n m : Nat}, m < n →
    ∀ y ∈ withIdx l n, m < y.1
  | [], _, _, _, _, hy => by cases hy
  | x :: xs, n, m, hmn, y, hy => by
    rcases List.mem_cons.mp hy with rfl | hy'
    · exact hmn
    · exact withIdx_fst_lt (Nat.lt_succ_of_lt hmn) y hy'

theorem withIdx_pairwise {α : Type} : ∀ (l : List α) (n : Nat),
    List.Pairwise (fun a b : Nat × α => a.1 < b.1) (withIdx l n)
  | [], _ => List.Pairwise.nil
  | x :: xs, n =>
    List.pairwise_cons.mpr
      ⟨fun y hy => withIdx_fst_lt (Nat.lt_succ_self n) y hy, withIdx_pairwise xs (n + 1)⟩

theorem mem_orderedInsert_jsSortRel {α : Type} {c : α → α → ℚ} {x z : α}
    {l : List α} (h : z ∈ List.orderedInsert (jsSortRel c) x l) : z = x ∨ z ∈ l :=
  (List.mem_orderedInsert _).mp h

/-- Inserting an element whose original position precedes everything already
in the list preserves the stability invariant: every pair in the output is
either in original order or strictly ordered by the comparator. -/
theorem pairwise_orderedInsert_stable {α : Type} {c : α → α → ℚ}
    (hneg : ∀ a b, ¬c a b ≤ 0 → c b a < 0) (x : Nat × α) :
    ∀ m : List (Nat × α), (∀ y ∈ m, x.1 < y.1) →
      List.Pairwise (fun a b : Nat × α => c a.2 b.2 < 0 ∨ a.1 < b.1) m →
      List.Pairwise (fun a b : Nat × α => c a.2 b.2 < 0 ∨ a.1 < b.1)
        (List.orderedInsert (jsSortRel (fun a b : Nat × α => c a.2 b.2)) x m)
  | [], _, _ => List.pairwise_singleton _ x
  | y :: ys, hx, hm => by
    by_cases hxy : jsSortRel (fun a b : Nat × α => c a.2 b.2) x y
    · rw [List.orderedInsert, if_pos hxy]
      exact List.pairwise_cons.mpr ⟨fun z hz => Or.inr (hx z hz), hm⟩
    · rw [List.orderedInsert, if_neg hxy]
      refine List.pairwise_cons.mpr ⟨fun z hz => ?_, ?_⟩
      · rcases mem_orderedInsert_jsSortRel hz with rfl | hz'
        · exact Or.inl (hneg _ _ hxy)
        · exact (List.pairwise_cons.mp hm).1 z hz'
      · exact pairwise_orderedInsert_stable hneg x ys
          (fun z hz => hx z (List.mem_cons_of_mem y hz)) (List.pairwise_cons.mp hm).2

/-- Stability of the JS sort: sorting an index-annotated list (with strictly
increasing indices) yields a list in which every pair is either strictly
ordered by the comparator or still in its original order. -/
theorem pairwise_jsSort_stable {α : Type} {c : α → α → ℚ}
    (hneg : ∀ a b, ¬c a b ≤ 0 → c b a < 0) :
    ∀ m : List (Nat × α), List.Pairwise (fun a b : Nat × α => a.1 < b.1) m →
      List.Pairwise (fun a b : Nat × α => c a.2 b.2 < 0 ∨ a.1 < b.1)
        (jsSort (fun a b : Nat × α => c a.2 b.2) m)
  | [], _ => List.Pairwise.nil
  | x :: xs, hidx => by
    have htail := pairwise_jsSort_stable hneg xs (List.pairwise_cons.mp hidx).2
    have hmem : ∀ y ∈ jsSort (fun a b : Nat × α => c a.2 b.2) xs, x.1 < y.1 :=
      fun y hy => (List.pairwise_cons.mp hidx).1 y ((jsSort_perm _ xs).mem_iff.mp hy)
    exact pairwise_orderedInsert_stable hneg x _ hmem htail

theorem map_snd_orderedInsert {α : Type} (c : α → α → ℚ) (x : Nat × α) :
    ∀ m : List (Nat × α),
      (List.orderedInsert (jsSortRel (fun a b : Nat × α => c a.2 b.2)) x m).map Prod.snd
        = List.orderedInsert (jsSortRel c) x.2 (m.map Prod.snd)
  | [] => rfl
  | y :: ys => by
    by_cases h : c x.2 y.2 ≤ 0 <;>
      simp [List.orderedInsert, jsSortRel, h, map_snd_orderedInsert c x ys]

/-- Forgetting the index annotations commutes with the sort, because the
comparator never looks at them. -/
theorem map_snd_jsSort {α : Type} (c : α → α → ℚ) :
    ∀ m : List (Nat × α),
      (jsSort (fun a b : Nat × α => c a.2 b.2) m).map Prod.snd = jsSort c (m.map Prod.snd)
  | [] => rfl
  | x :: xs => by
    simp only [jsSort, List.insertionSort, List.map_cons]
    rw [map_snd_orderedInsert c x]
    rw [show (List.insertionSort (jsSortRel fun a b : Nat × α => c a.2 b.2) xs).map Prod.snd
        = List.insertionSort (jsSortRel c) (xs.map Prod.snd) from map_snd_jsSort c xs]

/-! ### Properties of the two comparators -/

theorem deadlineDiff_comm (da db : Option Int) :
    deadlineDiff db da = -deadlineDiff da db := by
  rcases da with _ | x <;> rcases db with _ | y
  · norm_num [deadlineDiff]
  · norm_num [deadlineDiff]
  · norm_num [deadlineDiff]
  · simp only [deadlineDiff]
    push_cast
    ring

theorem cmpTasks_comm (a b : Task) : cmpTasks b a = -cmpTasks a b := by
  unfold cmpTasks
  by_cases hc : a.completed = b.completed
  · rw [if_neg (show ¬(b.completed ≠ a.completed) by simp [hc]),
      if_neg (show ¬(a.completed ≠ b.completed) by simp [hc])]
    by_cases hp : priorityWeight a.priority = priorityWeight b.priority
    · rw [if_neg (show ¬(priorityWeight b.priority ≠ priorityWeight a.priority) by
          simp [hp]),
        if_neg (show ¬(priorityWeight a.priority ≠ priorityWeight b.priority) by
          simp [hp])]
      exact deadlineDiff_comm a.deadline b.deadline
    · rw [if_pos (show priorityWeight b.priority ≠ priorityWeight a.priority from
          fun h => hp h.symm),
        if_pos (show priorityWeight a.priority ≠ priorityWeight b.priority from hp)]
      push_cast
      ring
  · rw [if_pos (show b.completed ≠ a.completed from fun h => hc h.symm),
      if_pos (show a.completed ≠ b.completed from hc)]
    cases ha : a.completed <;> cases hb : b.completed <;> simp_all

theorem cmpTasks_total (a b : Task) : cmpTasks a b ≤ 0 ∨ cmpTasks b a ≤ 0 := by
  rcases le_or_lt (cmpTasks a b) 0 with h | h
  · exact Or.inl h
  · right
    rw [cmpTasks_comm]
    linarith

theorem cmpTasks_neg {a b : Task} (h : ¬cmpTasks a b ≤ 0) : cmpTasks b a < 0 := by
  rw [cmpTasks_comm]
  push_neg at h
  linarith

theorem cmpScore_comm (now : Int) (e : String) (a b : Task) :
    cmpScore now e b a = -cmpScore now e a b := by
  unfold cmpScore
  ring

theorem cmpScore_total (now : Int) (e : String) (a b : Task) :
    cmpScore now e a b ≤ 0 ∨ cmpScore now e b a ≤ 0 := by
  rcases le_or_lt (cmpScore now e a b) 0 with h | h
  · exact Or.inl h
  · right
    rw [cmpScore_comm]
    linarith

theorem cmpScore_neg {now : Int} {e : String} {a b : Task}
    (h : ¬cmpScore now e a b ≤ 0) : cmpScore now e b a < 0 := by
  rw [cmpScore_comm]
  push_neg at h
  linarith

/-- The sign of a comparator value: `-1`, `0` or `1`. -/
def toSign (q : ℚ) : ℚ :=
  if q < 0 then -1 else if 0 < q then 1 else 0

theorem toSign_nonpos_iff (q : ℚ) : toSign q ≤ 0 ↔ q ≤ 0 := by
  unfold toSign
  rcases lt_trichotomy q 0 with h | h | h
  · rw [if_pos h]
    constructor
    · intro _
      linarith
    · intro _
      norm_num
  · subst h
    norm_num
  · rw [if_neg (show ¬q < 0 by linarith), if_pos h]
    constructor
    · intro h2
      linarith
    · intro h2
      linarith

theorem toSign_neg_iff (q : ℚ) : toSign q < 0 ↔ q < 0 := by
  unfold toSign
  rcases lt_trichotomy q 0 with h | h | h
  · rw [if_pos h]
    constructor
    · intro _
      exact h
    · intro _
      norm_num
  · subst h
    norm_num
  · rw [if_neg (show ¬q < 0 by linarith), if_pos h]
    constructor
    · intro h2
      linarith
    · intro h2
      linarith

/-- Modelled from the words of spec §4.3(a), deadline clause: the earlier
deadline sorts first, and any pair in which at least one task lacks a
deadline compares equal. -/
def deadlineCmpSpec (da db : Option Int) : ℚ :=
  match da, db with
  | some x, some y => if x < y then -1 else if y < x then 1 else 0
  | _, _ => 0

/-- Modelled from the words of claim C2 / spec §4.3(a): a sign-valued
comparator.  Completed tasks sort after all incomplete tasks; among equal
completion status the higher priority weight (urgent=4, high=3, medium=2
which is also the default, low=1) sorts first; among equal completion
status and priority the earlier deadline sorts first, with pairs lacking a
deadline comparing equal. -/
def cmpSpecC2 (a b : Task) : ℚ :=
  if a.completed = true ∧ b.completed = false then 1
  else if a.completed = false ∧ b.completed = true then -1
  else if priorityWeight b.priority < priorityWeight a.priority then -1
  else if priorityWeight a.priority < priorityWeight b.priority then 1
  else deadlineCmpSpec a.deadline b.deadline

theorem deadlineCmpSpec_eq_toSign (da db : Option Int) :
    deadlineCmpSpec da db = toSign (deadlineDiff da db) := by
  rcases da with _ | x <;> rcases db with _ | y
  · norm_num [deadlineCmpSpec, deadlineDiff, toSign]
  · norm_num [deadlineCmpSpec, deadlineDiff, toSign]
  · norm_num [deadlineCmpSpec, deadlineDiff, toSign]
  · simp only [deadlineCmpSpec, deadlineDiff]
    rcases lt_trichotomy x y with hd | hd | hd
    · rw [if_pos hd]
      have hx : ((x - y : Int) : ℚ) < 0 := by
        exact_mod_cast (show (x - y : Int) < 0 by omega)
      unfold toSign
      rw [if_pos hx]
    · subst hd
      rw [if_neg (lt_irrefl _), if_neg (lt_irrefl _)]
      unfold toSign
      norm_num
    · rw [if_neg (show ¬x < y by omega), if_pos hd]
      have hx : (0 : ℚ) < ((x - y : Int) : ℚ) := by
        exact_mod_cast (show (0 : Int) < x - y by omega)
      unfold toSign
      rw [if_neg (show ¬((x - y : Int) : ℚ) < 0 by linarith), if_pos hx]

theorem priority_clause_eq_toSign (pa pb : Int) (da db : Option Int) :
    (if pb < pa then (-1 : ℚ) else if pa < pb then 1 else deadlineCmpSpec da db)
      = toSign (if pa ≠ pb then ((pb - pa : Int) : ℚ) else deadlineDiff da db) := by
  rcases lt_trichotomy pa pb with hp | hp | hp
  · rw [if_neg (show ¬pb < pa by omega), if_pos hp, if_pos (show pa ≠ pb by omega)]
    have hx : (0 : ℚ) < ((pb - pa : Int) : ℚ) := by
      exact_mod_cast (show (0 : Int) < pb - pa by omega)
    unfold toSign
    rw [if_neg (show ¬((pb - pa : Int) : ℚ) < 0 by linarith), if_pos hx]
  · subst hp
    rw [if_neg (lt_irrefl _), if_neg (lt_irrefl _), if_neg (show ¬pa ≠ pa by simp)]
    exact deadlineCmpSpec_eq_toSign da db
  · rw [if_pos hp, if_pos (show pa ≠ pb by omega)]
    have hx : ((pb - pa : Int) : ℚ) < 0 := by
      exact_mod_cast (show (pb - pa : Int) < 0 by omega)
    unfold toSign
    rw [if_pos hx]

/-- The source comparator and the spec comparator agree in sign. -/
theorem cmpSpecC2_eq_toSign (a b : Task) : cmpSpecC2 a b = toSign (cmpTasks a b) := by
  unfold cmpSpecC2 cmpTasks
  cases hA : a.completed <;> cases hB : b.completed
  · rw [if_neg (show ¬((false : Bool) = true ∧ (false : Bool) = false) by decide),
      if_neg (show ¬((false : Bool) = false ∧ (false : Bool) = true) by decide),
      if_neg (show ¬((false : Bool) ≠ false) by decide)]
    exact priority_clause_eq_toSign _ _ _ _
  · rw [if_neg (show ¬((false : Bool) = true ∧ (true : Bool) = false) by decide),
      if_pos (show (false : Bool) = false ∧ (true : Bool) = true by decide),
      if_pos (show (false : Bool) ≠ true by decide),
      if_neg (show ¬((false : Bool) = true) by decide)]
    unfold toSign
    norm_num
  · rw [if_pos (show (true : Bool) = true ∧ (false : Bool) = false by decide),
      if_pos (show (true : Bool) ≠ false by decide),
      if_pos (show (true : Bool) = true by decide)]
    unfold toSign
    norm_num
  · rw [if_neg (show ¬((true : Bool) = true ∧ (true : Bool) = false) by decide),
      if_neg (show ¬((true : Bool) = false ∧ (true : Bool) = true) by decide),
      if_neg (show ¬((true : Bool) ≠ true) by decide)]
    exact priority_clause_eq_toSign _ _ _ _

theorem cmpTasks_le_iff_cmpSpecC2_le (a b : Task) :
    cmpTasks a b ≤ 0 ↔ cmpSpecC2 a b ≤ 0 := by
  rw [cmpSpecC2_eq_toSign, toSign_nonpos_iff]

theorem cmpSpecC2_neg {a b : Task} (h : ¬cmpSpecC2 a b ≤ 0) : cmpSpecC2 b a < 0 := by
  rw [cmpSpecC2_eq_toSign, toSign_neg_iff]
  rw [cmpSpecC2_eq_toSign, toSign_nonpos_iff] at h
  exact cmpTasks_neg h

theorem cmpSpecC2_total (a b : Task) : cmpSpecC2 a b ≤ 0 ∨ cmpSpecC2 b a ≤ 0 := by
  rw [cmpSpecC2_eq_toSign, cmpSpecC2_eq_toSign, toSign_nonpos_iff, toSign_nonpos_iff]
  exact cmpTasks_total a b

/-! ### Chat: daily quota (`AIChatManager`) and log cap (`POST /api/ai/chats`) -/

/-- One chat exchange.  `day` abstracts `new Date(timestamp).toDateString()`:
two entries have the same `day` exactly when their timestamps fall on the
same server-local calendar day.  The response text is irrelevant to the
claims and is stored verbatim. -/
structure ChatEntry where
  id : String := ""
  message : String := ""
  response : String := ""
  day : Nat := 0
deriving Repr, DecidableEq

/-- Number of stored chats whose timestamp falls on day `d`. -/
def countDay (d : Nat) (chats : List ChatEntry) : Nat :=
  (chats.filter fun ch => ch.day = d).length

/-- `AIChatManager.isDailyLimitReached`: `todayChats.length >= 10`. -/
def isDailyLimitReached (today : Nat) (chats : List ChatEntry) : Bool :=
  10 ≤ countDay today chats

/-- Outcome of a chat attempt; `quotaExceeded` models the quota-exceeded
response shown when the daily limit is reached. -/
inductive SendResult where
  | accepted
  | quotaExceeded
deriving Repr, DecidableEq

/-- `AIChatManager.sendMessage` for a non-empty message: if the daily limit
is reached the attempt is rejected and the responder is not invoked;
otherwise the responder runs and the exchange is appended.  The returned
`Bool` records whether `AIService.generateResponse` was invoked. -/
def sendMessage (today : Nat) (msg : String) (chats : List ChatEntry) :
    List ChatEntry × (SendResult × Bool) :=
  if isDailyLimitReached today chats then (chats, (SendResult.quotaExceeded, false))
  else (chats ++ [{ message := msg, day := today }], (SendResult.accepted, true))

/-- Run a sequence of chat attempts, each tagged with the day it happens on,
collecting each attempt's outcome. -/
def runChats : List (Nat × String) → List ChatEntry →
    List ChatEntry × List (SendResult × Bool)
  | [], chats => (chats, [])
  | (d, m) :: rest, chats =>
    let step := sendMessage d m chats
    let next := runChats rest step.1
    (next.1, step.2 :: next.2)

/-- Number of attempts in the sequence that happen on day `d`. -/
def countOn (d : Nat) (attempts : List (Nat × String)) : Nat :=
  (attempts.filter fun a => a.1 = d).length

/-- `POST /api/ai/chats`: push the new chat, then
`if (chats.length > 100) chats.splice(0, chats.length - 100)` — keep only
the last 100 entries. -/
def appendChat (c : ChatEntry) (chats : List ChatEntry) : List ChatEntry :=
  let l := chats ++ [c]
  if 100 < l.length then l.drop (l.length - 100) else l

/-! ### Document store (`readUserFile` / `getDefaultData` in `server.js`) -/

/-- A JSON document. -/
inductive Json where
  | null
  | bool (b : Bool)
  | num (n : Int)
  | str (s : String)
  | arr (elems : List Json)
  | obj (fields : List (String × Json))

/-- `getDefaultData(filename)` from `server.js`, transcribed field by field.
`nowIso` stands for the `new Date().toISOString()` stored in the analytics
default's `lastCalculated`. -/
def getDefaultData (nowIso : String) (filename : String) : Json :=
  if filename = "profile.json" then .obj []
  else if filename = "tasks.json" then .arr []
  else if filename = "aichat.json" then .arr []
  else if filename = "schedule.json" then
    .obj [("events", .arr []), ("optimizedSchedule", .arr []), ("lastOptimized", .null)]
  else if filename = "preferences.json" then
    .obj
      [("workingHours", .obj [("start", .str "09:00"), ("end", .str "17:00")]),
        ("energyPeaks", .arr [.str "morning"]),
        ("preferredBreakDuration", .num 15),
        ("focusBlockLength", .num 60),
        ("workDays",
          .arr [.str "monday", .str "tuesday", .str "wednesday", .str "thursday",
            .str "friday"]),
        ("notifications",
          .obj [("taskReminders", .bool true), ("aiSuggestions", .bool true),
            ("breakReminders", .bool true), ("weeklyReports", .bool true)])]
  else if filename = "analytics.json" then
    .obj
      [("totalTasks", .num 0), ("completedToday", .num 0), ("focusTime", .num 0),
        ("trends",
          .obj [("completed", .num 0), ("focus", .num 0), ("totalTasks", .num 0),
            ("aiUsage", .num 0)]),
        ("timeDistribution",
          .obj [("work", .obj [("hours", .num 0), ("percentage", .num 0)]),
            ("meetings", .obj [("hours", .num 0), ("percentage", .num 0)]),
            ("admin", .obj [("hours", .num 0), ("percentage", .num 0)])]),
        ("weeklyData", .arr []),
        ("lastCalculated", .str nowIso)]
  else .obj []

/-- State of the backing file for one `(userId, resource)` pair: absent
(`fs.readFile` throws `ENOENT`), present with a parsed document, or any
other I/O failure (permission denied, disk error, …). -/
inductive FileState where
  | missing
  | present (doc : Json)
  | ioError

/-- The `StorageError` of the spec's error taxonomy: an underlying I/O
failure surfaced to the caller. -/
inductive StorageFailure where
  | storageError
deriving Repr, DecidableEq

/-- `readUserFile` from `server.js`: a missing file yields the
resource-specific default document; any other error is re-thrown to the
caller. -/
def readUserFile (fs : FileState) (nowIso : String) (filename : String) :
    Except StorageFailure Json :=
  match fs with
  | .missing => .ok (getDefaultData nowIso filename)
  | .present j => .ok j
  | .ioError => .error .storageError

/-! ### Task CRUD (`server.js` handlers and the dashboard `TaskManager`) -/

/-- The request body of `POST /api/tasks`.  The dashboard form sends
`title`, `description`, `priority`, `category`, `deadline`, `duration` and
`energy`; a raw API caller may additionally supply `id`, `completed` or
`createdAt`, which the handler's object spread then overrides (except `id`,
which is spread after the generated one). -/
structure TaskPayload where
  id : Option String := none
  title : String := ""
  description : String := ""
  priority : String := "medium"
  category : String := "general"
  deadline : Option Int := none
  duration : Option Int := none
  energyRequired : Option String := none
  completed : Option Bool := none
  createdAt : Option Int := none
deriving Repr, DecidableEq

/-- The task built by `POST /api/tasks`:
`{ id: generateUserId(), ...taskData, completed: false, createdAt: new Date().toISOString() }`.
Later literal keys win over the spread, so `completed` and `createdAt` are
always the server's values; a payload `id` (spread after the generated key)
would win over `generateUserId()`. -/
def mkNewTask (p : TaskPayload) (genId : String) (now : Int) : Task :=
  { id := p.id.getD genId
    title := p.title
    description := p.description
    priority := p.priority
    category := p.category
    deadline := p.deadline
    duration := p.duration
    energyRequired := p.energyRequired
    completed := false
    completedAt := none
    createdAt := now }

/-- `POST /api/tasks`: read the list, push the new task, write it back. -/
def postTask (p : TaskPayload) (genId : String) (now : Int)
    (tasks : List Task) : List Task :=
  tasks ++ [mkNewTask p genId now]

/-- Replace the first task with the given id (the server merges updates
into `tasks[taskIndex]` found by `findIndex`). -/
def updateFirst (id : String) (f : Task → Task) : List Task → List Task
  | [] => []
  | t :: ts => if t.id = id then f t :: ts else t :: updateFirst id f ts

/-- The update object built by `TaskManager.toggleComplete`:
`{ completed: !task.completed, completedAt: !task.completed ? new Date().toISOString() : null }`,
merged into the stored task by `PUT /api/tasks/:id`. -/
def toggleUpdate (now : Int) (t : Task) : Task :=
  { t with
    completed := !t.completed
    completedAt := if t.completed then none else some now }

/-- `TaskManager.toggleComplete` together with the server `PUT`: the first
task with the given id gets the toggle update; if the id is absent nothing
changes. -/
def toggleComplete (id : String) (now : Int) (l : List Task) : List Task :=
  updateFirst id (toggleUpdate now) l

/-- The `NotFoundError` of the spec's error taxonomy (HTTP 404). -/
inductive ApiError where
  | notFound
deriving Repr, DecidableEq

/-- `PUT /api/tasks/:id`: find the task by id; absent → 404 with no write;
otherwise merge the updates into it and write the list back.  The first
component is the stored list after the request (unchanged on the error
path), the second the request's outcome. -/
def putTask (id : String) (merge : Task → Task) :
    List Task → List Task × Except ApiError Task
  | [] => ([], .error .notFound)
  | t :: ts =>
    if t.id = id then (merge t :: ts, .ok (merge t))
    else
      let rest := putTask id merge ts
      (t :: rest.1, rest.2)

/-- `DELETE /api/tasks/:id`: filter the task out; if nothing was removed →
404 with no write; otherwise write the filtered list. -/
def deleteTask (id : String) (tasks : List Task) :
    List Task × Except ApiError Unit :=
  let filtered := tasks.filter fun t => ¬t.id = id
  if filtered.length = tasks.length then (tasks, .error .notFound)
  else (filtered, .ok ())

/-- `optimizeWithAI` from the dashboard: no-op on an empty list; otherwise
score and reorder the active tasks with `AIService.suggestTaskReorder` and
re-append the completed tasks after them.  `now` and `userEnergy` stand for
`new Date()` and `calculateEnergyLevel().energy.toLowerCase()`. -/
def optimizeWithAI (now : Int) (userEnergy : String) (tasks : List Task) :
    List Task :=
  if tasks.isEmpty then tasks
  else
    suggestTaskReorder (tasks.filter fun t => !t.completed) now userEnergy ++
      tasks.filter (fun t => t.completed)

/-- The task lists reachable through the system's task operations: starting
from the empty store, creating a task from a dashboard-form payload,
toggling completion, deleting a task, and AI-optimizing.  These are the
mutations the application performs on the stored task list. -/
inductive ReachableTasks : List Task → Prop where
  | empty : ReachableTasks []
  | create (p : TaskPayload) (genId : String) (now : Int) {l : List Task} :
      ReachableTasks l → ReachableTasks (postTask p genId now l)
  | toggle (id : String) (now : Int) {l : List Task} :
      ReachableTasks l → ReachableTasks (toggleComplete id now l)
  | remove (id : String) {l : List Task} :
      ReachableTasks l → ReachableTasks (deleteTask id l).1
  | optimize (now : Int) (userEnergy : String) {l : List Task} :
      ReachableTasks l → ReachableTasks (optimizeWithAI now userEnergy l)

/-! ### Claim theorems -/

/-- C6: for every task list, sorting twice with the 4.3a ranking comparator
yields exactly the same order as sorting once — the stable sort with the
`TaskManager.sortTasks` comparator is idempotent, including for lists mixing
tasks with and without deadlines at equal priority, where the comparator
reports the pair as equal. -/
theorem C6_sortTasks_idempotent (l : List Task) :
    sortTasks (sortTasks l) = sortTasks l :=
  jsSort_idem cmpTasks_total l

/-- C7: AI-optimize scores and reorders only the incomplete tasks; every
completed task is excluded from scoring and appears after the optimized
active list, unchanged field-for-field and in the completed tasks' previous
relative order (they are re-appended as `tasks.filter(task => task.completed)`). -/
theorem C7_optimize_frame (tasks : List Task) (now : Int) (e : String) :
    optimizeWithAI now e tasks =
      suggestTaskReorder (tasks.filter fun t => !t.completed) now e ++
        tasks.filter (fun t => t.completed) ∧
    (suggestTaskReorder (tasks.filter fun t => !t.completed) now e).Perm
      (tasks.filter fun t => !t.completed) ∧
    (optimizeWithAI now e tasks).drop ((tasks.filter fun t => !t.completed).length)
      = tasks.filter (fun t => t.completed) := by
  have h1 : optimizeWithAI now e tasks =
      suggestTaskReorder (tasks.filter fun t => !t.completed) now e ++
        tasks.filter (fun t => t.completed) := by
    unfold optimizeWithAI
    cases tasks with
    | nil => simp [suggestTaskReorder, jsSort]
    | cons t ts => rw [if_neg (by simp)]
  refine ⟨h1, jsSort_perm _ _, ?_⟩
  have hlen : (suggestTaskReorder (tasks.filter fun t => !t.completed) now e).length
      = (tasks.filter fun t => !t.completed).length :=
    (jsSort_perm (cmpScore now e) _).length_eq
  rw [h1, ← hlen, List.drop_left]

/-- C8: a chat append stores at most 100 entries, evicting the oldest
first: the stored log is exactly the most recent 100 entries (a suffix of
the appended log), in their original order. -/
theorem C8_chat_log_cap (chats : List ChatEntry) (c : ChatEntry) :
    appendChat c chats = (chats ++ [c]).drop (chats.length + 1 - 100) ∧
    (appendChat c chats).length = min (chats.length + 1) 100 ∧
    (appendChat c chats).length ≤ 100 ∧
    (appendChat c chats).IsSuffix (chats ++ [c]) := by
  unfold appendChat
  have hlen : (chats ++ [c]).length = chats.length + 1 := by simp
  by_cases h : 100 < (chats ++ [c]).length
  · rw [if_pos h]
    rw [hlen] at h
    refine ⟨by rw [hlen], ?_, ?_, List.drop_suffix _ _⟩
    · rw [List.length_drop, hlen]
      omega
    · rw [List.length_drop, hlen]
      omega
  · rw [if_neg h]
    rw [hlen] at h
    push_neg at h
    refine ⟨?_, ?_, ?_, List.suffix_refl _⟩
    · rw [show chats.length + 1 - 100 = 0 by omega, List.drop_zero]
    · rw [hlen]
      omega
    · rw [hlen]
      omega

theorem putTask_not_found {id : String} {merge : Task → Task} :
    ∀ tasks : List Task, id ∉ tasks.map Task.id →
      putTask id merge tasks = (tasks, .error .notFound)
  | [], _ => rfl
  | t :: ts, h => by
    simp only [List.map_cons, List.mem_cons, not_or] at h
    obtain ⟨h1, h2⟩ := h
    unfold putTask
    rw [if_neg fun he => h1 he.symm, putTask_not_found ts h2]

/-- C9: updating or deleting a task id that is not present fails with
`NotFoundError` (HTTP 404) and leaves the stored task list unchanged — no
write happens on the error path. -/
theorem C9_update_delete_not_found (id : String) (merge : Task → Task)
    (tasks : List Task) (h : id ∉ tasks.map Task.id) :
    putTask id merge tasks = (tasks, .error .notFound) ∧
    deleteTask id tasks = (tasks, .error .notFound) := by
  refine ⟨putTask_not_found tasks h, ?_⟩
  have hall : ∀ a ∈ tasks, ¬a.id = id := fun a ha he => h (List.mem_map.mpr ⟨a, ha, he⟩)
  have hf : (tasks.filter fun t => ¬t.id = id) = tasks :=
    List.filter_eq_self.mpr fun a ha => by simp [hall a ha]
  simp only [deleteTask]
  rw [hf]
  simp

/-- Witness for C9 at a concrete store and id. -/
theorem C9_witness :
    putTask "z" (fun t => t) [{ id := "a" }] = ([{ id := "a" }], .error .notFound) ∧
    deleteTask "z" [{ id := "a" }] = ([{ id := "a" }], .error .notFound) :=
  C9_update_delete_not_found "z" (fun t => t) [{ id := "a" }] (by decide)

/-- C10: the task stored by `POST /api/tasks` always has `completed = false`
and the server-generated `createdAt`, even when the request payload supplies
its own `completed` or `createdAt` — the handler's literal keys are spread
after the payload and win. -/
theorem C10_create_overrides (p : TaskPayload) (genId : String) (now : Int)
    (tasks : List Task) :
    postTask p genId now tasks = tasks ++ [mkNewTask p genId now] ∧
    (mkNewTask p genId now).completed = false ∧
    (mkNewTask p genId now).createdAt = now ∧
    (mkNewTask { p with completed := some true, createdAt := some 123 } genId
      now).completed = false ∧
    (mkNewTask { p with completed := some true, createdAt := some 123 } genId
      now).createdAt = now :=
  ⟨rfl, rfl, rfl, rfl, rfl⟩

/-- C4: a document-store read with no backing file returns the
resource-specific default document (empty list for tasks and chat, the
structured zero-state for analytics and schedule, the hard-coded defaults
object for preferences) rather than an error; any other I/O failure during
a read surfaces to the caller as a `StorageError`, never silently
swallowed. -/
theorem C4_read_defaults_and_errors :
    (∀ nowIso : String,
      readUserFile .missing nowIso "tasks.json" = .ok (Json.arr []) ∧
      readUserFile .missing nowIso "aichat.json" = .ok (Json.arr []) ∧
      readUserFile .missing nowIso "schedule.json" =
        .ok (.obj [("events", .arr []), ("optimizedSchedule", .arr []),
          ("lastOptimized", .null)]) ∧
      readUserFile .missing nowIso "preferences.json" =
        .ok (.obj
          [("workingHours", .obj [("start", .str "09:00"), ("end", .str "17:00")]),
            ("energyPeaks", .arr [.str "morning"]),
            ("preferredBreakDuration", .num 15),
            ("focusBlockLength", .num 60),
            ("workDays",
              .arr [.str "monday", .str "tuesday", .str "wednesday",
                .str "thursday", .str "friday"]),
            ("notifications",
              .obj [("taskReminders", .bool true), ("aiSuggestions", .bool true),
                ("breakReminders", .bool true), ("weeklyReports", .bool true)])]) ∧
      readUserFile .missing nowIso "analytics.json" =
        .ok (.obj
          [("totalTasks", .num 0), ("completedToday", .num 0), ("focusTime", .num 0),
            ("trends",
              .obj [("completed", .num 0), ("focus", .num 0), ("totalTasks", .num 0),
                ("aiUsage", .num 0)]),
            ("timeDistribution",
              .obj [("work", .obj [("hours", .num 0), ("percentage", .num 0)]),
                ("meetings", .obj [("hours", .num 0), ("percentage", .num 0)]),
                ("admin", .obj [("hours", .num 0), ("percentage", .num 0)])]),
            ("weeklyData", .arr []),
            ("lastCalculated", .str nowIso)])) ∧
    (∀ (nowIso filename : String),
      readUserFile .ioError nowIso filename = .error .storageError) ∧
    (∀ (nowIso filename : String) (j : Json),
      readUserFile (.present j) nowIso filename = .ok j) :=
  ⟨fun _ => ⟨rfl, rfl, rfl, rfl, rfl⟩, fun _ _ => rfl, fun _ _ _ => rfl⟩

/-- Scenario task `{title:"A", priority:"low"}`. -/
def taskA : Task := { title := "A", priority := "low" }

/-- Scenario task `{title:"B", priority:"urgent"}`. -/
def taskB : Task := { title := "B", priority := "urgent" }

/-- Scenario task `{title:"C", priority:"medium", completed:true}`. -/
def taskC : Task := { title := "C", priority := "medium", completed := true }

set_option maxHeartbeats 2000000 in
/-- C2: the deterministic list ordering is the stable sort with the spec's
comparator.  The source comparator agrees in sign with the comparator built
from the claim's words (`cmpSpecC2`); `sortTasks` equals the stable sort by
that comparator; the output is a permutation of the input; sorting the
index-annotated list shows every pair is either strictly ordered by the
comparator or kept in its original relative order (stability — in
particular pairs the comparator reports equal, such as equal-priority pairs
in which a task lacks a deadline, keep their original order); completed
tasks come after all incomplete ones and priority weight is descending
within equal completion status; and the scenario list sorts to [B, A, C]. -/
theorem C2_sortTasks_is_stable_spec_sort :
    (∀ a b : Task, cmpSpecC2 a b = toSign (cmpTasks a b)) ∧
    (∀ l : List Task, sortTasks l = jsSort cmpSpecC2 l) ∧
    (∀ l : List Task, (sortTasks l).Perm l) ∧
    (∀ l : List Task,
      (jsSort (fun a b : Nat × Task => cmpSpecC2 a.2 b.2) (withIdx l 0)).map Prod.snd
          = sortTasks l ∧
        List.Pairwise (fun a b : Nat × Task => cmpSpecC2 a.2 b.2 < 0 ∨ a.1 < b.1)
          (jsSort (fun a b : Nat × Task => cmpSpecC2 a.2 b.2) (withIdx l 0))) ∧
    (∀ l : List Task,
      List.Pairwise (fun a b : Task =>
        (a.completed = true → b.completed = true) ∧
          (a.completed = b.completed →
            priorityWeight b.priority ≤ priorityWeight a.priority)) (sortTasks l)) ∧
    sortTasks [taskA, taskB, taskC] = [taskB, taskA, taskC] := by
  have hcongr : ∀ l : List Task, sortTasks l = jsSort cmpSpecC2 l :=
    fun l => jsSort_congr cmpTasks_le_iff_cmpSpecC2_le l
  refine ⟨cmpSpecC2_eq_toSign, hcongr, fun l => jsSort_perm _ l, fun l => ⟨?_, ?_⟩, ?_, ?_⟩
  · rw [map_snd_jsSort cmpSpecC2 (withIdx l 0), withIdx_map_snd, hcongr]
  · exact @pairwise_jsSort_stable Task cmpSpecC2 (fun a b hab => cmpSpecC2_neg hab)
      (withIdx l 0) (withIdx_pairwise l 0)
  · intro l
    have hch : List.Chain' (jsSortRel cmpTasks) (sortTasks l) := chain'_jsSort cmpTasks_total l
    refine pairwise_of_chain' ?_ ?_ hch
    · intro a b hab
      constructor
      · intro hA
        by_contra hB
        have hB' : b.completed = false := by
          cases hb : b.completed
          · rfl
          · exact absurd hb hB
        unfold jsSortRel cmpTasks at hab
        rw [if_pos (show a.completed ≠ b.completed by rw [hA, hB']; decide),
          if_pos hA] at hab
        linarith
      · intro hEq
        by_contra hP
        push_neg at hP
        unfold jsSortRel cmpTasks at hab
        rw [if_neg (show ¬a.completed ≠ b.completed by simp [hEq]),
          if_pos (show priorityWeight a.priority ≠ priorityWeight b.priority by omega)]
          at hab
        have : (0 : ℚ) <
            ((priorityWeight b.priority - priorityWeight a.priority : Int) : ℚ) := by
          exact_mod_cast (show (0 : Int) <
            priorityWeight b.priority - priorityWeight a.priority by omega)
        linarith
    · rintro a b c ⟨hab1, hab2⟩ ⟨hbc1, hbc2⟩
      constructor
      · exact fun h => hbc1 (hab1 h)
      · intro hac
        cases ha : a.completed
        · cases hb : b.completed
          · have hc : c.completed = false := by rw [← hac, ha]
            have h1 := hab2 (by rw [ha, hb])
            have h2 := hbc2 (by rw [hb, hc])
            omega
          · have hc : c.completed = true := hbc1 hb
            rw [← hac, ha] at hc
            exact absurd hc (by decide)
        · have hb := hab1 ha
          have hc : c.completed = true := hbc1 hb
          have h1 := hab2 (by rw [ha, hb])
          have h2 := hbc2 (by rw [hb, hc])
          omega
  · decide

set_option maxHeartbeats 2000000 in
/-- C1: `AIService.suggestTaskReorder` returns the tasks in descending
order of `score = priorityWeight × energyMatchScore × deadlineUrgencyScore`
as a stable sort (equal scores keep their original relative order, shown by
the index-annotated pairwise property), with the constants the claim lists:
priority weights 4/3/1 with default 2; the fixed 3×3 energy table with
default 1 on any missing or unrecognized key; deadline urgency 1 without a
deadline, 3 under 2 hours (negatives, i.e. overdue, included), 2 under 24
hours, else 1; and in the scenario with user energy "high", task energy
"low" and a deadline 30 minutes away the score is
`priorityWeight × 0.5 × 3`. -/
theorem C1_suggestTaskReorder_scoring :
    (∀ (tasks : List Task) (now : Int) (e : String),
      (suggestTaskReorder tasks now e).Perm tasks ∧
      List.Pairwise (fun a b : Task =>
        calculateScore now e b ≤ calculateScore now e a)
        (suggestTaskReorder tasks now e) ∧
      (jsSort (fun a b : Nat × Task => cmpScore now e a.2 b.2)
          (withIdx tasks 0)).map Prod.snd = suggestTaskReorder tasks now e ∧
      List.Pairwise (fun a b : Nat × Task =>
        calculateScore now e b.2 < calculateScore now e a.2 ∨ a.1 < b.1)
        (jsSort (fun a b : Nat × Task => cmpScore now e a.2 b.2)
          (withIdx tasks 0))) ∧
    (∀ p : String, priorityWeight p =
      if p = "urgent" then 4 else if p = "high" then 3
      else if p = "low" then 1 else 2) ∧
    (energyMatchScore "high" (some "high") = 2 ∧
      energyMatchScore "high" (some "medium") = 1 ∧
      energyMatchScore "high" (some "low") = 1/2 ∧
      energyMatchScore "medium" (some "high") = 3/2 ∧
      energyMatchScore "medium" (some "medium") = 2 ∧
      energyMatchScore "medium" (some "low") = 1 ∧
      energyMatchScore "low" (some "high") = 1/2 ∧
      energyMatchScore "low" (some "medium") = 1 ∧
      energyMatchScore "low" (some "low") = 2) ∧
    (∀ u : String, energyMatchScore u none = 1) ∧
    (∀ u te : String, u ≠ "high" → u ≠ "medium" → u ≠ "low" →
      energyMatchScore u (some te) = 1) ∧
    (∀ u te : String, te ≠ "high" → te ≠ "medium" → te ≠ "low" →
      energyMatchScore u (some te) = 1) ∧
    (∀ (now : Int) (t : Task), getDeadlineUrgencyScore now t =
      match t.deadline with
      | none => 1
      | some dl =>
        if dl - now < 7200000 then 3
        else if dl - now < 86400000 then 2
        else 1) ∧
    (∀ (now : Int) (e : String) (t : Task), calculateScore now e t =
      (priorityWeight t.priority : ℚ) * energyMatchScore e t.energyRequired *
        getDeadlineUrgencyScore now t) ∧
    (∀ (now : Int) (pr : String), calculateScore now "high"
      { id := "", priority := pr, energyRequired := some "low",
        deadline := some (now + 1800000) } =
      (priorityWeight pr : ℚ) * (1/2) * 3) := by
  refine ⟨?_, ?_, ⟨rfl, rfl, rfl, rfl, rfl, rfl, rfl, rfl, rfl⟩, ?_, ?_, ?_, ?_,
    fun _ _ _ => rfl, ?_⟩
  · intro tasks now e
    haveI : IsTotal Task (jsSortRel (cmpScore now e)) := ⟨cmpScore_total now e⟩
    haveI : IsTrans Task (jsSortRel (cmpScore now e)) := ⟨fun a b c hab hbc => by
      unfold jsSortRel cmpScore at hab hbc ⊢
      linarith⟩
    have hsorted : List.Sorted (jsSortRel (cmpScore now e))
        (suggestTaskReorder tasks now e) :=
      List.sorted_insertionSort (jsSortRel (cmpScore now e)) tasks
    refine ⟨jsSort_perm _ tasks, ?_, ?_, ?_⟩
    · exact List.Pairwise.imp
        (fun hab => by unfold jsSortRel cmpScore at hab; linarith) hsorted
    · rw [map_snd_jsSort (cmpScore now e) (withIdx tasks 0), withIdx_map_snd]
      rfl
    · have hst := @pairwise_jsSort_stable Task (cmpScore now e)
        (fun a b hab => cmpScore_neg hab) (withIdx tasks 0) (withIdx_pairwise tasks 0)
      exact List.Pairwise.imp
        (fun hab => hab.imp (fun h => by unfold cmpScore at h; linarith) id) hst
  · intro p
    unfold priorityWeight
    by_cases h1 : p = "urgent"
    · subst h1
      decide
    · by_cases h2 : p = "high"
      · subst h2
        decide
      · by_cases h3 : p = "medium"
        · subst h3
          decide
        · by_cases h4 : p = "low"
          · subst h4
            decide
          · simp [h1, h2, h3, h4]
  · intro u
    unfold energyMatchScore
    by_cases h1 : u = "high" <;> by_cases h2 : u = "medium" <;>
      by_cases h3 : u = "low" <;> simp [h1, h2, h3]
  · intro u te hu1 hu2 hu3
    unfold energyMatchScore
    rw [if_neg hu1, if_neg hu2, if_neg hu3]
  · intro u te h1 h2 h3
    have k1 : ¬(some te = some "high") := fun h => h1 (Option.some.inj h)
    have k2 : ¬(some te = some "medium") := fun h => h2 (Option.some.inj h)
    have k3 : ¬(some te = some "low") := fun h => h3 (Option.some.inj h)
    unfold energyMatchScore
    by_cases hu1 : u = "high" <;> by_cases hu2 : u = "medium" <;>
      by_cases hu3 : u = "low" <;> simp [hu1, hu2, hu3, k1, k2, k3]
  · intro now t
    rcases hd : t.deadline with _ | dl
    · simp [getDeadlineUrgencyScore, hd]
    · simp only [getDeadlineUrgencyScore, hd]
      have h1 : (((dl - now : Int) : ℚ) / (1000 * 60 * 60) < 2) ↔
          (dl - now < 7200000) := by
        rw [div_lt_iff (by norm_num : (0 : ℚ) < 1000 * 60 * 60)]
        constructor
        · intro h
          exact_mod_cast (by linarith : ((dl - now : Int) : ℚ) < 7200000)
        · intro h
          have : ((dl - now : Int) : ℚ) < 7200000 := by exact_mod_cast h
          linarith
      have h2 : (((dl - now : Int) : ℚ) / (1000 * 60 * 60) < 24) ↔
          (dl - now < 86400000) := by
        rw [div_lt_iff (by norm_num : (0 : ℚ) < 1000 * 60 * 60)]
        constructor
        · intro h
          exact_mod_cast (by linarith : ((dl - now : Int) : ℚ) < 86400000)
        · intro h
          have : ((dl - now : Int) : ℚ) < 86400000 := by exact_mod_cast h
          linarith
      rw [if_congr h1 rfl (if_congr h2 rfl rfl)]
  · intro now pr
    have he : energyMatchScore "high" (some "low") = 1/2 := rfl
    have key : ∀ t : Task, t.priority = pr → t.energyRequired = some "low" →
        t.deadline = some (now + 1800000) →
        calculateScore now "high" t = (priorityWeight pr : ℚ) * (1/2) * 3 := by
      intro t hp hen hd
      have hdl : getDeadlineUrgencyScore now t = 3 := by
        simp only [getDeadlineUrgencyScore, hd]
        have h18 : ((now + 1800000 - now : Int) : ℚ) = 1800000 := by
          push_cast
          ring
        rw [h18]
        norm_num
      unfold calculateScore
      rw [hp, hen, he, hdl]
    exact key _ rfl rfl rfl

/-- Witness for C1 at concrete unrecognized energy keys. -/
theorem C1_witness :
    energyMatchScore "peak" (some "high") = 1 ∧
    energyMatchScore "high" (some "extreme") = 1 :=
  ⟨C1_suggestTaskReorder_scoring.2.2.2.2.1 "peak" "high"
      (by decide) (by decide) (by decide),
    C1_suggestTaskReorder_scoring.2.2.2.2.2.1 "high" "extreme"
      (by decide) (by decide) (by decide)⟩

theorem countDay_append (d : Nat) (chats : List ChatEntry) (c : ChatEntry) :
    countDay d (chats ++ [c]) = countDay d chats + (if c.day = d then 1 else 0) := by
  unfold countDay
  rw [List.filter_append]
  by_cases h : c.day = d <;> simp [h]

theorem countOn_cons (d d' : Nat) (m : String) (rest : List (Nat × String)) :
    countOn d ((d', m) :: rest) = (if d' = d then 1 else 0) + countOn d rest := by
  unfold countOn
  by_cases h : d' = d <;> simp [h, List.filter_cons] <;> omega

theorem runChats_count (d : Nat) :
    ∀ (attempts : List (Nat × String)) (chats : List ChatEntry),
      countDay d (runChats attempts chats).1 =
        if countDay d chats < 10 then min (countDay d chats + countOn d attempts) 10
        else countDay d chats
  | [], chats => by
    simp only [runChats]
    by_cases h : countDay d chats < 10 <;> simp [h, countOn] <;> omega
  | (d', m) :: rest, chats => by
    simp only [runChats]
    unfold sendMessage
    by_cases hl : isDailyLimitReached d' chats = true
    · rw [if_pos hl]
      dsimp only
      rw [runChats_count d rest chats, countOn_cons]
      have h10 : 10 ≤ countDay d' chats := by
        unfold isDailyLimitReached at hl
        exact of_decide_eq_true hl
      by_cases hdd : d' = d
      · subst hdd
        have hnot : ¬countDay d' chats < 10 := by omega
        rw [if_neg hnot, if_neg hnot]
      · rw [if_neg hdd]
        simp
    · rw [if_neg hl]
      dsimp only
      have hl' : countDay d' chats < 10 := by
        unfold isDailyLimitReached at hl
        simpa using hl
      rw [runChats_count d rest _, countDay_append, countOn_cons]
      by_cases hdd : d' = d
      · subst hdd
        rw [if_pos (show ({ message := m, day := d' } : ChatEntry).day = d' from rfl)]
        split_ifs <;> omega
      · rw [if_neg (show ¬({ message := m, day := d' } : ChatEntry).day = d from hdd)]
        split_ifs <;> omega

theorem runChats_append (l₁ l₂ : List (Nat × String)) :
    ∀ chats, runChats (l₁ ++ l₂) chats =
      ((runChats l₂ (runChats l₁ chats).1).1,
        (runChats l₁ chats).2 ++ (runChats l₂ (runChats l₁ chats).1).2) := by
  induction l₁ with
  | nil =>
    intro chats
    simp [runChats]
  | cons a rest ih =>
    intro chats
    obtain ⟨d, m⟩ := a
    simp [runChats, ih]

theorem runChats_res_length (attempts : List (Nat × String)) :
    ∀ chats, (runChats attempts chats).2.length = attempts.length := by
  induction attempts with
  | nil =>
    intro chats
    simp [runChats]
  | cons a rest ih =>
    intro chats
    obtain ⟨d, m⟩ := a
    simp [runChats, ih]

/-- C3: for every user and calendar day, the first 10 chat exchanges of the
day succeed and every further attempt that day — in particular the 11th —
is rejected with the quota-exceeded outcome without invoking the chat
responder; at most 10 chat exchanges per day are accepted (the stored count
for a day is capped by `min · 10`). -/
theorem C3_chat_daily_quota (attempts : List (Nat × String))
    (chats₀ : List ChatEntry) (d : Nat) (h0 : ∀ ch ∈ chats₀, ch.day ≠ d) :
    countDay d (runChats attempts chats₀).1 = min (countOn d attempts) 10 ∧
    ∀ (pre : List (Nat × String)) (m : String) (post : List (Nat × String)),
      attempts = pre ++ (d, m) :: post →
      (runChats attempts chats₀).2[pre.length]? =
        some (if countOn d pre < 10 then (SendResult.accepted, true)
          else (SendResult.quotaExceeded, false)) := by
  have hc0 : countDay d chats₀ = 0 := by
    unfold countDay
    rw [List.filter_eq_nil.mpr fun ch hch => by simp [h0 ch hch]]
    rfl
  constructor
  · rw [runChats_count, hc0]
    norm_num
  · intro pre m post hsplit
    subst hsplit
    have hcount : countDay d (runChats pre chats₀).1 = min (countOn d pre) 10 := by
      rw [runChats_count, hc0]
      norm_num
    rw [runChats_append]
    dsimp only
    rw [List.getElem?_append_right (le_of_eq (runChats_res_length pre chats₀)),
      runChats_res_length, Nat.sub_self]
    simp only [runChats]
    unfold sendMessage
    by_cases h10 : countOn d pre < 10
    · rw [if_pos h10,
        if_neg (show ¬isDailyLimitReached d (runChats pre chats₀).1 = true by
          unfold isDailyLimitReached
          simp only [hcount, decide_eq_true_eq]
          omega)]
      rw [List.getElem?_cons_zero]
    · rw [if_neg h10,
        if_pos (show isDailyLimitReached d (runChats pre chats₀).1 = true by
          unfold isDailyLimitReached
          simp only [hcount, decide_eq_true_eq]
          omega)]
      rw [List.getElem?_cons_zero]

/-- Witness for C3: eleven attempts on one day from a fresh log; ten are
stored and the eleventh is rejected without invoking the responder. -/
theorem C3_witness :
    countDay 0 (runChats (List.replicate 11 (0, "hi")) []).1 = 10 ∧
    (runChats (List.replicate 11 (0, "hi")) []).2[10]? =
      some (SendResult.quotaExceeded, false) := by
  have h := C3_chat_daily_quota (List.replicate 11 (0, "hi")) [] 0
    (fun ch hch => absurd hch (List.not_mem_nil ch))
  constructor
  · rw [h.1]
    decide
  · have h2 := h.2 (List.replicate 10 (0, "hi")) "hi" [] (by decide)
    simp only [List.length_replicate] at h2
    rw [if_neg (by decide : ¬countOn 0 (List.replicate 10 ((0 : Nat), "hi")) < 10)]
      at h2
    exact h2

theorem mem_updateFirst {id : String} {f : Task → Task} :
    ∀ {l : List Task} {t : Task}, t ∈ updateFirst id f l →
      t ∈ l ∨ ∃ s ∈ l, t = f s := by
  intro l
  induction l with
  | nil =>
    intro t ht
    simp [updateFirst] at ht
  | cons s ts ih =>
    intro t ht
    by_cases h : s.id = id
    · rw [updateFirst, if_pos h] at ht
      rcases List.mem_cons.mp ht with rfl | ht'
      · exact Or.inr ⟨s, List.mem_cons_self s ts, rfl⟩
      · exact Or.inl (List.mem_cons_of_mem s ht')
    · rw [updateFirst, if_neg h] at ht
      rcases List.mem_cons.mp ht with rfl | ht'
      · exact Or.inl (List.mem_cons_self _ _)
      · rcases ih ht' with h1 | ⟨u, hu, hf⟩
        · exact Or.inl (List.mem_cons_of_mem _ h1)
        · exact Or.inr ⟨u, List.mem_cons_of_mem _ hu, hf⟩

theorem toggleUpdate_invariant (now : Int) (t : Task) :
    (toggleUpdate now t).completedAt.isSome = (toggleUpdate now t).completed := by
  cases h : t.completed <;> simp [toggleUpdate, h]

theorem mem_deleteTask {id : String} {l : List Task} {t : Task}
    (ht : t ∈ (deleteTask id l).1) : t ∈ l := by
  simp only [deleteTask] at ht
  by_cases h : (l.filter fun x => ¬x.id = id).length = l.length
  · rw [if_pos h] at ht
    exact ht
  · rw [if_neg h] at ht
    exact List.mem_of_mem_filter ht

theorem mem_optimizeWithAI {now : Int} {e : String} {l : List Task} {t : Task}
    (ht : t ∈ optimizeWithAI now e l) : t ∈ l := by
  unfold optimizeWithAI at ht
  by_cases h : l.isEmpty
  · rw [if_pos h] at ht
    exact ht
  · rw [if_neg h] at ht
    rcases List.mem_append.mp ht with h1 | h2
    · exact List.mem_of_mem_filter
        ((jsSort_perm (cmpScore now e) (l.filter fun x => !x.completed)).mem_iff.mp h1)
    · exact List.mem_of_mem_filter h2

/-- C5: for every task list reachable through the system's task operations
(create from a dashboard payload, toggle completion, delete, AI-optimize),
`completedAt` is non-null exactly when `completed` is true; and the toggle
update sets `completedAt` to the current time on a false→true transition
and clears it to null on true→false. -/
theorem C5_completedAt_iff_completed :
    (∀ l : List Task, ReachableTasks l →
      ∀ t ∈ l, t.completedAt.isSome = t.completed) ∧
    (∀ (now : Int) (t : Task),
      (toggleUpdate now t).completed = !t.completed ∧
      (toggleUpdate now t).completedAt = if t.completed then none else some now) := by
  refine ⟨?_, fun now t => ⟨rfl, rfl⟩⟩
  intro l hreach
  induction hreach with
  | empty =>
    intro t ht
    exact absurd ht (List.not_mem_nil t)
  | create p genId now hl ih =>
    intro t ht
    simp only [postTask] at ht
    rcases List.mem_append.mp ht with h1 | h2
    · exact ih t h1
    · rw [List.mem_singleton.mp h2]
      rfl
  | toggle id now hl ih =>
    intro t ht
    unfold toggleComplete at ht
    rcases mem_updateFirst ht with h1 | ⟨s, hs, hf⟩
    · exact ih t h1
    · rw [hf]
      exact toggleUpdate_invariant now s
  | remove id hl ih =>
    intro t ht
    exact ih t (mem_deleteTask ht)
  | optimize now e hl ih =>
    intro t ht
    exact ih t (mem_optimizeWithAI ht)

/-- Witness for C5: a created task toggled once has `completedAt = some 5`
and `completed = true`. -/
theorem C5_witness :
    (Task.mk "a" "" "" true (some 5) none "medium" "general" none none
      0).completedAt.isSome =
    (Task.mk "a" "" "" true (some 5) none "medium" "general" none none
      0).completed := by
  have hr : ReachableTasks (toggleComplete "a" 5 (postTask {} "a" 0 [])) :=
    ReachableTasks.toggle "a" 5 (ReachableTasks.create {} "a" 0 ReachableTasks.empty)
  exact C5_completedAt_iff_completed.1 _ hr _ (by decide)

end Zyntrain
